import Mathlib

/-!
# nsenter (src/native/nsenter/nsenter.c)

A shallow embedding of `main` of the cpak `nsenter` helper.  The program is a
straight pipeline of system calls.  The embedding makes the operating system
an explicit parameter (`Env`: what every call site returns) and makes the
behaviour of one process an explicit value (`Run`: the system calls it made,
with their results and the diagnostics written in between, and how the process
ended).

`getopt_long` and `atoi` belong to the C library: the embedding starts from
what they deliver, the sequence of option codes with their converted arguments
(`Opt`) and the arguments left at `argv + optind` (`rest`).
-/

namespace Nsenter

/-! ## Constants and tables (lines 30-35, 69-70) -/

def CLONE_NEWUSER : Nat := 0x10000000
def CLONE_NEWIPC : Nat := 0x08000000
def CLONE_NEWUTS : Nat := 0x04000000
def CLONE_NEWNET : Nat := 0x40000000
def CLONE_NEWPID : Nat := 0x20000000
def CLONE_NEWNS : Nat := 0x00020000

def ns_flags : List Nat :=
  [CLONE_NEWUSER, CLONE_NEWIPC, CLONE_NEWUTS, CLONE_NEWNET, CLONE_NEWPID, CLONE_NEWNS]

def ns_names : List String := ["user", "ipc", "uts", "net", "pid", "mnt"]

/-! ## Observable behaviour -/

/-- System calls made by `main`, with their arguments. -/
inductive Call where
  | geteuid
  | openRd (path : String)
  | setns (fd : Int) (nstype : Nat)
  | close (fd : Int)
  | fchdir (fd : Int)
  | chroot (path : String)
  | chdir (path : String)
  | fork
  | waitpid (child : Int)
  | setgroups (size : Nat)
  | setgid (gid : Int)
  | setuid (uid : Int)
  | execvp (file : Option String) (argv : List String)
  deriving DecidableEq, Repr

/-- One observable step of a process: a call that returned `ret`, a call that
never returned (an `execvp` that replaced the process image), a `perror` line
with the given label, or the usage line, both written to stderr. -/
inductive Event where
  | call (c : Call) (ret : Int)
  | noreturn (c : Call)
  | perror (label : String)
  | usage
  deriving DecidableEq, Repr

/-- How a process ends: `exit(status)` or `return status` from `main`, or the
image replaced by the program `argv`. -/
inductive Outcome where
  | exited (status : Nat)
  | replaced (argv : List String)
  deriving DecidableEq, Repr

/-- The life of one process: its events in order and how it ended. -/
structure Run where
  trace : List Event
  outcome : Outcome
  deriving DecidableEq, Repr

/-- A stretch of `main`: the events it produces and, when it ends the process,
how (`none`: control reaches the next statement). -/
structure Step where
  trace : List Event
  halt : Option Outcome
  deriving DecidableEq, Repr

/-- Sequencing of two stretches: the second runs only if the first did not end
the process. -/
def Step.andThen (a b : Step) : Step :=
  match a.halt with
  | some o => ⟨a.trace, some o⟩
  | none => ⟨a.trace ++ b.trace, b.halt⟩

/-- A stretch followed by the rest of the program. -/
def Step.finish (a : Step) (k : Run) : Run :=
  match a.halt with
  | some o => ⟨a.trace, o⟩
  | none => ⟨a.trace ++ k.trace, k.outcome⟩

/-- The operating system as seen by one process: the value returned at each
call site of `main` (each site runs at most once in a process).  `execvp` is
`none` when the call does not return (the image is replaced) and then `status`
is the exit status with which the launched program ends. -/
structure Env where
  geteuid : Int
  open_ns : Nat → Int
  setns : Nat → Int
  close_ns : Nat → Int
  open_root : Int
  fchdir : Int
  chroot : Int
  close_root : Int
  chdir : Int
  fork : Int
  waitpid : Int
  setgroups : Int
  setgid : Int
  setuid : Int
  execvp : Option Int
  status : Nat

/-! ## Option parsing (lines 48-119) -/

/-- One result of `getopt_long` in the loop of line 72: the option code, with
`atoi(optarg)` or `optarg` for the options that take an argument.
`longPreserve` and `longNoFork` are the long options for which `getopt_long`
stores 1 in the variable and returns 0; `unknown` is `?` or any other code. -/
inductive Opt where
  | target (v : Int)
  | mount
  | uts
  | ipc
  | net
  | pid
  | user
  | setuid (v : Int)
  | setgid (v : Int)
  | root (p : String)
  | wd (p : String)
  | noForkShort
  | longPreserve
  | longNoFork
  | unknown
  deriving DecidableEq, Repr

/-- The local variables of `main` that the options set (lines 48-50, 68). -/
structure Vars where
  pid : Int
  uid : Int
  gid : Int
  preserve : Bool
  nofork : Bool
  root : Option String
  work : Option String
  ns_enable : List Bool
  deriving DecidableEq, Repr

/-- Initial values, lines 48-50 and 68. -/
def Vars.init : Vars :=
  { pid := 0, uid := 0, gid := 0, preserve := false, nofork := false,
    root := none, work := none, ns_enable := List.replicate 6 false }

/-- Body of the `switch` of lines 74-118; `none` is the usage-and-exit arm. -/
def optStep (v : Vars) : Opt → Option Vars
  | Opt.target n => some { v with pid := n }
  | Opt.mount => some { v with ns_enable := v.ns_enable.set 5 true }
  | Opt.uts => some { v with ns_enable := v.ns_enable.set 2 true }
  | Opt.ipc => some { v with ns_enable := v.ns_enable.set 1 true }
  | Opt.net => some { v with ns_enable := v.ns_enable.set 3 true }
  | Opt.pid => some { v with ns_enable := v.ns_enable.set 4 true }
  | Opt.user => some { v with ns_enable := v.ns_enable.set 0 true }
  | Opt.setuid n => some { v with uid := n }
  | Opt.setgid n => some { v with gid := n }
  | Opt.root p => some { v with root := some p }
  | Opt.wd p => some { v with work := some p }
  | Opt.noForkShort => some { v with nofork := true }
  | Opt.longPreserve => some { v with preserve := true }
  | Opt.longNoFork => some { v with nofork := true }
  | Opt.unknown => none

/-- The `while` loop of line 72. -/
def parseOpts (v : Vars) : List Opt → Option Vars
  | [] => some v
  | o :: os =>
    match optStep v o with
    | none => none
    | some v1 => parseOpts v1 os

/-! ## The pipeline (lines 37-44, 120-201) -/

/-- The `open` call that `open_ns` (lines 37-44) makes, returning `ret`. -/
def open_ns (pid : Int) (ns : String) (path : Option String) (ret : Int) : Event :=
  match path with
  | some p => Event.call (Call.openRd p) ret
  | none => Event.call (Call.openRd ("/proc/" ++ toString pid ++ "/ns/" ++ ns)) ret

/-- The array element `ns_enable[i]`. -/
def enabled (v : Vars) (i : Nat) : Bool := v.ns_enable.getD i false

/-- The array element `ns_flags[i]`. -/
def flagOf (i : Nat) : Nat := ns_flags.getD i 0

/-- The array element `ns_names[i]`. -/
def nameOf (i : Nat) : String := ns_names.getD i ""

/-- Whether iteration `i` of the join loop gets past both `continue`s
(lines 131-134). -/
def joins (v : Vars) (env : Env) (i : Nat) : Bool :=
  enabled v i && !(i == 0 && !v.preserve && env.geteuid != 0)

/-- One iteration of the join loop (body of lines 130-147). -/
def joinOne (v : Vars) (env : Env) (i : Nat) : Step :=
  if enabled v i = false then ⟨[], none⟩
  else
    let probe : List Event :=
      if i = 0 ∧ v.preserve = false then [Event.call Call.geteuid env.geteuid] else []
    if i = 0 ∧ v.preserve = false ∧ env.geteuid ≠ 0 then ⟨probe, none⟩
    else
      let fd := env.open_ns i
      let t1 := probe ++ [open_ns v.pid (nameOf i) none fd]
      if fd < 0 then ⟨t1 ++ [Event.perror "open_ns"], some (Outcome.exited 1)⟩
      else
        let r := env.setns i
        let t2 := t1 ++ [Event.call (Call.setns fd (flagOf i)) r]
        if r < 0 then ⟨t2 ++ [Event.perror "setns"], some (Outcome.exited 1)⟩
        else ⟨t2 ++ [Event.call (Call.close fd) (env.close_ns i)], none⟩

/-- The join loop over the remaining indices (lines 129-147 run it on 0..5). -/
def joinLoop (v : Vars) (env : Env) : List Nat → Step
  | [] => ⟨[], none⟩
  | i :: is => (joinOne v env i).andThen (joinLoop v env is)

/-- Root relocation (lines 148-167). -/
def relocateRoot (v : Vars) (env : Env) : Step :=
  match v.root with
  | none => ⟨[], none⟩
  | some root =>
    let fd := env.open_root
    let t1 := [open_ns v.pid "root" (some root) fd]
    if fd < 0 then ⟨t1 ++ [Event.perror "open root"], some (Outcome.exited 1)⟩
    else
      let t2 := t1 ++ [Event.call (Call.fchdir fd) env.fchdir]
      if env.fchdir < 0 then ⟨t2 ++ [Event.perror "fchdir"], some (Outcome.exited 1)⟩
      else
        let t3 := t2 ++ [Event.call (Call.chroot ".") env.chroot]
        if env.chroot < 0 then ⟨t3 ++ [Event.perror "chroot"], some (Outcome.exited 1)⟩
        else ⟨t3 ++ [Event.call (Call.close fd) env.close_root], none⟩

/-- Working directory change (lines 168-175). -/
def changeWork (v : Vars) (env : Env) : Step :=
  match v.work with
  | none => ⟨[], none⟩
  | some work =>
    let t := [Event.call (Call.chdir work) env.chdir]
    if env.chdir < 0 then ⟨t ++ [Event.perror "chdir"], some (Outcome.exited 1)⟩
    else ⟨t, none⟩

/-- Fork decision (lines 176-189). -/
def forkStep (v : Vars) (env : Env) : Step :=
  if v.nofork = false ∧ enabled v 4 = true then
    let c := env.fork
    let t := [Event.call Call.fork c]
    if c < 0 then ⟨t ++ [Event.perror "fork"], some (Outcome.exited 1)⟩
    else if c > 0 then
      ⟨t ++ [Event.call (Call.waitpid c) env.waitpid], some (Outcome.exited 0)⟩
    else ⟨t, none⟩
  else ⟨[], none⟩

/-- Credential drop (lines 190-198). -/
def dropCreds (v : Vars) (env : Env) : Step :=
  if v.preserve = false then
    let t1 := [Event.call (Call.setgroups 0) env.setgroups] ++
      (if env.setgroups < 0 then [Event.perror "setgroups"] else [])
    let t2 := t1 ++ (if v.gid ≠ 0 then [Event.call (Call.setgid v.gid) env.setgid] else [])
    let t3 := t2 ++ (if v.uid ≠ 0 then [Event.call (Call.setuid v.uid) env.setuid] else [])
    ⟨t3, none⟩
  else ⟨[], none⟩

/-- The final `execvp(cmd[0], cmd)` and what follows it (lines 199-201);
`cmd[0]` of an empty vector is the terminating null pointer. -/
def execStep (cmd : List String) (env : Env) : Run :=
  match env.execvp with
  | none => ⟨[Event.noreturn (Call.execvp cmd.head? cmd)], Outcome.replaced cmd⟩
  | some r => ⟨[Event.call (Call.execvp cmd.head? cmd) r, Event.perror "exec"], Outcome.exited 1⟩

/-- Everything up to the fork decision (lines 129-175). -/
def preFork (v : Vars) (env : Env) : Step :=
  ((joinLoop v env (List.range 6)).andThen (relocateRoot v env)).andThen (changeWork v env)

/-- Everything up to the credential drop (lines 129-189). -/
def preCreds (v : Vars) (env : Env) : Step :=
  (preFork v env).andThen (forkStep v env)

/-- Lines 129-201. -/
def pipeline (v : Vars) (cmd : List String) (env : Env) : Run :=
  ((preCreds v env).andThen (dropCreds v env)).finish (execStep cmd env)

/-- The command vector after lines 125-127: `rest` is `argv + optind`. -/
def stripMarker (rest : List String) : List String :=
  if rest.head? = some "--" then rest.tail else rest

/-- The program: `opts` is what the `getopt_long` loop delivers, `rest` the
arguments from `argv[optind]` on. -/
def main (opts : List Opt) (rest : List String) (env : Env) : Run :=
  match parseOpts Vars.init opts with
  | none => ⟨[Event.usage], Outcome.exited 1⟩
  | some v =>
    if v.pid = 0 ∨ rest = [] then ⟨[Event.usage], Outcome.exited 1⟩
    else pipeline v (stripMarker rest) env

/-- Exit status that the invoker observes for a process that ran in `env`. -/
def exitStatus (env : Env) (r : Run) : Nat :=
  match r.outcome with
  | Outcome.exited s => s
  | Outcome.replaced _ => env.status

/-- An environment in which every call succeeds; the caller is root and
`fork` returns 0 (the process continues as the child). -/
def Env.ok : Env :=
  { geteuid := 0, open_ns := fun _ => 3, setns := fun _ => 0, close_ns := fun _ => 0,
    open_root := 3, fchdir := 0, chroot := 0, close_root := 0, chdir := 0,
    fork := 0, waitpid := 0, setgroups := 0, setgid := 0, setuid := 0,
    execvp := none, status := 0 }

/-! ## Projections of a trace -/

/-- The system calls of a trace, in order, whatever they returned. -/
def calls : List Event → List Call
  | [] => []
  | Event.call c _ :: t => c :: calls t
  | Event.noreturn c :: t => c :: calls t
  | _ :: t => calls t

/-- The namespace type of a `setns` call. -/
def Call.nstype? : Call → Option Nat
  | Call.setns _ f => some f
  | _ => none

/-- The namespace types passed to `setns`, in call order. -/
def setnsFlags (t : List Event) : List Nat := (calls t).filterMap Call.nstype?

/-- The credential calls: `setgroups`, `setgid`, `setuid`. -/
def Call.isCred : Call → Bool
  | Call.setgroups _ => true
  | Call.setgid _ => true
  | Call.setuid _ => true
  | _ => false

/-- The credential calls of a trace, in call order. -/
def credCalls (t : List Event) : List Call := (calls t).filter Call.isCred

/-- The calls whose failure `main` treats as fatal: `open`, `setns`, `fchdir`,
`chroot`, `chdir`, `fork`, `execvp`. -/
def Call.fatal : Call → Bool
  | Call.openRd _ => true
  | Call.setns _ _ => true
  | Call.fchdir _ => true
  | Call.chroot _ => true
  | Call.chdir _ => true
  | Call.fork => true
  | Call.execvp _ _ => true
  | _ => false

/-- Whether an event is a fatal call that failed. -/
def Event.fatalFailure : Event → Bool
  | Event.call c r => c.fatal && decide (r < 0)
  | _ => false

/-! ## What the invocation specified -/

/-- The target pid given on the command line: the argument of the last
`-t` option, if any. -/
def targetArg : List Opt → Option Int
  | [] => none
  | Opt.target n :: os => (targetArg os).orElse (fun _ => some n)
  | _ :: os => targetArg os

/-- The gid given on the command line: the argument of the last `-G`. -/
def gidArg : List Opt → Option Int
  | [] => none
  | Opt.setgid n :: os => (gidArg os).orElse (fun _ => some n)
  | _ :: os => gidArg os

/-- The uid given on the command line: the argument of the last `-S`. -/
def uidArg : List Opt → Option Int
  | [] => none
  | Opt.setuid n :: os => (uidArg os).orElse (fun _ => some n)
  | _ :: os => uidArg os

/-! ## Statements of the specification, in its own words -/

/-- The join sequence the specification prescribes: user, ipc, uts, net, pid,
mnt restricted to the enabled kinds, user being dropped when credentials are
not preserved and the caller is not root. -/
def expectedJoins (enable : List Bool) (preserve : Bool) (euid : Int) : List Nat :=
  (if enable.getD 0 false = true ∧ ¬ (preserve = false ∧ euid ≠ 0) then [CLONE_NEWUSER] else []) ++
  (if enable.getD 1 false = true then [CLONE_NEWIPC] else []) ++
  (if enable.getD 2 false = true then [CLONE_NEWUTS] else []) ++
  (if enable.getD 3 false = true then [CLONE_NEWNET] else []) ++
  (if enable.getD 4 false = true then [CLONE_NEWPID] else []) ++
  (if enable.getD 5 false = true then [CLONE_NEWNS] else [])

/-- The credential calls the specification prescribes when credentials are not
preserved: clear the groups, set the gid if one was specified, set the uid if
one was specified. -/
def specCredCalls (gid uid : Option Int) : List Call :=
  [Call.setgroups 0] ++
  (match gid with
   | some g => [Call.setgid g]
   | none => []) ++
  (match uid with
   | some u => [Call.setuid u]
   | none => [])

/-- The credential calls `main` makes when credentials are not preserved: as
`specCredCalls`, except that a specified id of 0 makes no call. -/
def codeCredCalls (gid uid : Option Int) : List Call :=
  [Call.setgroups 0] ++
  (match gid with
   | some g => if g = 0 then [] else [Call.setgid g]
   | none => []) ++
  (match uid with
   | some u => if u = 0 then [] else [Call.setuid u]
   | none => [])

/-- The part of `main` a call belongs to: 0 the calls of the join loop (and
the `open` and `close` around the root change), 1 `fchdir` and `chroot`,
2 `chdir`, 3 `fork` and `waitpid`, 4 the credential calls, 5 `execvp`. -/
def Call.kind : Call → Nat
  | Call.geteuid => 0
  | Call.openRd _ => 0
  | Call.setns _ _ => 0
  | Call.close _ => 0
  | Call.fchdir _ => 1
  | Call.chroot _ => 1
  | Call.chdir _ => 2
  | Call.fork => 3
  | Call.waitpid _ => 3
  | Call.setgroups _ => 4
  | Call.setgid _ => 4
  | Call.setuid _ => 4
  | Call.execvp _ _ => 5

/-- Every failed fatal call of the trace is followed by one `perror` line and
nothing else, and the process then ends with status 1 (`h` is how the stretch
ends). -/
def FatalStops (h : Option Outcome) : List Event → Prop
  | [] => True
  | e :: t =>
    (e.fatalFailure = true →
      (∃ label, t = [Event.perror label]) ∧ h = some (Outcome.exited 1)) ∧
    FatalStops h t

/-- A stretch that stops at its first failed fatal call, and that hands over
control only if none failed. -/
def Step.Sound (s : Step) : Prop :=
  FatalStops s.halt s.trace ∧ (s.halt = none → ∀ e ∈ s.trace, e.fatalFailure = false)

/-- A non-root caller in whose environment every call succeeds. -/
def Env.user : Env := { Env.ok with geteuid := 1000 }

/-- The parent side of a successful `fork`: the call returns the child's pid. -/
def Env.parent : Env := { Env.ok with fork := 42 }

/-- The child side of the same `fork`; the launched program ends with 7. -/
def Env.child : Env := { Env.ok with fork := 0, status := 7 }

/-! ## Sequencing lemmas -/

theorem andThen_of_none {a : Step} (b : Step) (h : a.halt = none) :
    a.andThen b = ⟨a.trace ++ b.trace, b.halt⟩ := by
  simp [Step.andThen, h]

theorem andThen_of_some {a : Step} (b : Step) {o : Outcome} (h : a.halt = some o) :
    a.andThen b = ⟨a.trace, some o⟩ := by
  simp [Step.andThen, h]

theorem andThen_halt_none {a b : Step} :
    (a.andThen b).halt = none ↔ a.halt = none ∧ b.halt = none := by
  cases h : a.halt <;> simp [Step.andThen, h]

theorem finish_of_none {a : Step} (k : Run) (h : a.halt = none) :
    a.finish k = ⟨a.trace ++ k.trace, k.outcome⟩ := by
  simp [Step.finish, h]

theorem finish_of_some {a : Step} (k : Run) {o : Outcome} (h : a.halt = some o) :
    a.finish k = ⟨a.trace, o⟩ := by
  simp [Step.finish, h]

theorem calls_append (s t : List Event) : calls (s ++ t) = calls s ++ calls t := by
  induction s with
  | nil => rfl
  | cons e s ih => cases e <;> simp [calls, ih]

theorem setnsFlags_append (s t : List Event) :
    setnsFlags (s ++ t) = setnsFlags s ++ setnsFlags t := by
  simp [setnsFlags, calls_append]

theorem credCalls_append (s t : List Event) :
    credCalls (s ++ t) = credCalls s ++ credCalls t := by
  simp [credCalls, calls_append]

/-! ## The parsed variables and the command line -/

theorem main_eq_pipeline {opts : List Opt} {rest : List String} {v : Vars} (env : Env)
    (hp : parseOpts Vars.init opts = some v) (hpid : v.pid ≠ 0) (hrest : rest ≠ []) :
    main opts rest env = pipeline v (stripMarker rest) env := by
  simp [main, hp, hpid, hrest]

/-! ## The join loop -/

/-- The shapes one iteration of the join loop can take. -/
theorem joinOne_cases (v : Vars) (env : Env) (i : Nat) :
    ∃ probe : List Event,
      (probe = [] ∨ probe = [Event.call Call.geteuid env.geteuid]) ∧
      ((joins v env i = false ∧ joinOne v env i = ⟨probe, none⟩) ∨
       (joins v env i = true ∧ env.open_ns i < 0 ∧
          joinOne v env i =
            ⟨probe ++ [open_ns v.pid (nameOf i) none (env.open_ns i)] ++
              [Event.perror "open_ns"], some (Outcome.exited 1)⟩) ∨
       (joins v env i = true ∧ 0 ≤ env.open_ns i ∧ env.setns i < 0 ∧
          joinOne v env i =
            ⟨probe ++ [open_ns v.pid (nameOf i) none (env.open_ns i)] ++
              [Event.call (Call.setns (env.open_ns i) (flagOf i)) (env.setns i)] ++
              [Event.perror "setns"], some (Outcome.exited 1)⟩) ∨
       (joins v env i = true ∧ 0 ≤ env.open_ns i ∧ 0 ≤ env.setns i ∧
          joinOne v env i =
            ⟨probe ++ [open_ns v.pid (nameOf i) none (env.open_ns i)] ++
              [Event.call (Call.setns (env.open_ns i) (flagOf i)) (env.setns i)] ++
              [Event.call (Call.close (env.open_ns i)) (env.close_ns i)], none⟩)) := by
  unfold joinOne
  by_cases he : enabled v i = false
  · refine ⟨[], Or.inl rfl, Or.inl ⟨?_, ?_⟩⟩
    · simp [joins, he]
    · rw [if_pos he]
  · have he1 : enabled v i = true := by simpa using he
    rw [if_neg he]
    by_cases hs : i = 0 ∧ v.preserve = false ∧ env.geteuid ≠ 0
    · have hj : joins v env i = false := by
        obtain ⟨h0, h1, h2⟩ := hs
        simp [joins, he1, h0, h1, h2]
      have hp : i = 0 ∧ v.preserve = false := ⟨hs.1, hs.2.1⟩
      rw [if_pos hs, if_pos hp]
      exact ⟨_, Or.inr rfl, Or.inl ⟨hj, rfl⟩⟩
    · have hj : joins v env i = true := by
        simp only [joins, he1, Bool.true_and]
        by_cases h0 : i = 0
        · by_cases h1 : v.preserve = false
          · have h2 : env.geteuid = 0 := by
              by_contra hne
              exact hs ⟨h0, h1, hne⟩
            simp [h0, h1, h2]
          · simp [h0, h1]
        · simp [h0]
      rw [if_neg hs]
      refine ⟨if i = 0 ∧ v.preserve = false then [Event.call Call.geteuid env.geteuid] else [],
        ?_, Or.inr ?_⟩
      · by_cases hp : i = 0 ∧ v.preserve = false
        · rw [if_pos hp]
          exact Or.inr rfl
        · rw [if_neg hp]
          exact Or.inl rfl
      · by_cases ho : env.open_ns i < 0
        · rw [if_pos ho]
          exact Or.inl ⟨hj, ho, rfl⟩
        · rw [if_neg ho]
          by_cases hn : env.setns i < 0
          · rw [if_pos hn]
            exact Or.inr (Or.inl ⟨hj, not_lt.mp ho, hn, rfl⟩)
          · rw [if_neg hn]
            exact Or.inr (Or.inr ⟨hj, not_lt.mp ho, not_lt.mp hn, rfl⟩)

theorem joinOne_ok (v : Vars) (env : Env) (i : Nat)
    (h : joins v env i = true → 0 ≤ env.open_ns i ∧ 0 ≤ env.setns i) :
    (joinOne v env i).halt = none ∧
      setnsFlags (joinOne v env i).trace =
        if joins v env i = true then [flagOf i] else [] := by
  unfold joinOne
  by_cases he : enabled v i = false
  · simp [he, joins, setnsFlags, calls]
  · have he1 : enabled v i = true := by simpa using he
    by_cases hs : i = 0 ∧ v.preserve = false ∧ env.geteuid ≠ 0
    · have hj : joins v env i = false := by
        obtain ⟨h0, h1, h2⟩ := hs
        simp [joins, he1, h0, h1, h2]
      have hp : i = 0 ∧ v.preserve = false := ⟨hs.1, hs.2.1⟩
      rw [if_neg he, if_pos hs, if_pos hp]
      simp [hj, setnsFlags, calls, Call.nstype?]
    · have hj : joins v env i = true := by
        simp only [joins, he1, Bool.true_and]
        by_cases h0 : i = 0
        · by_cases h1 : v.preserve = false
          · have h2 : env.geteuid = 0 := by
              by_contra hne
              exact hs ⟨h0, h1, hne⟩
            simp [h0, h1, h2]
          · simp [h0, h1]
        · simp [h0]
      obtain ⟨ho, hn⟩ := h hj
      rw [if_neg he, if_neg hs, if_neg (not_lt.mpr ho), if_neg (not_lt.mpr hn), if_pos hj]
      refine ⟨rfl, ?_⟩
      by_cases hp : i = 0 ∧ v.preserve = false
      · rw [if_pos hp]
        simp [setnsFlags, calls, open_ns, Call.nstype?]
      · rw [if_neg hp]
        simp [setnsFlags, calls, open_ns, Call.nstype?]

theorem joinLoop_ok (v : Vars) (env : Env) (is : List Nat)
    (h : ∀ i ∈ is, joins v env i = true → 0 ≤ env.open_ns i ∧ 0 ≤ env.setns i) :
    (joinLoop v env is).halt = none ∧
      setnsFlags (joinLoop v env is).trace =
        (is.filter (fun i => joins v env i)).map flagOf := by
  induction is with
  | nil => simp [joinLoop, setnsFlags, calls]
  | cons i is ih =>
    obtain ⟨h1, h2⟩ := joinOne_ok v env i (h i (List.mem_cons_self _ _))
    obtain ⟨h3, h4⟩ := ih (fun j hj => h j (List.mem_cons_of_mem _ hj))
    rw [joinLoop, andThen_of_none _ h1]
    refine ⟨h3, ?_⟩
    simp only [setnsFlags_append, h2, h4, List.filter_cons]
    by_cases hj : joins v env i = true <;> simp [hj]

/-! ## Phases after the join loop make no `setns` call -/

theorem andThen_trace (a b : Step) :
    (a.andThen b).trace = a.trace ++ (if a.halt = none then b.trace else []) := by
  cases h : a.halt <;> simp [Step.andThen, h]

theorem finish_trace (a : Step) (k : Run) :
    (a.finish k).trace = a.trace ++ (if a.halt = none then k.trace else []) := by
  cases h : a.halt <;> simp [Step.finish, h]

theorem setnsFlags_andThen (a b : Step) (hb : setnsFlags b.trace = []) :
    setnsFlags (a.andThen b).trace = setnsFlags a.trace := by
  rw [andThen_trace, setnsFlags_append]
  split
  · rw [hb, List.append_nil]
  · simp [setnsFlags, calls]

theorem setnsFlags_finish (a : Step) (k : Run) (hk : setnsFlags k.trace = []) :
    setnsFlags (a.finish k).trace = setnsFlags a.trace := by
  rw [finish_trace, setnsFlags_append]
  split
  · rw [hk, List.append_nil]
  · simp [setnsFlags, calls]

theorem setnsFlags_relocateRoot (v : Vars) (env : Env) :
    setnsFlags (relocateRoot v env).trace = [] := by
  unfold relocateRoot
  repeat (first | split | simp [setnsFlags, calls, open_ns, Call.nstype?])

theorem setnsFlags_changeWork (v : Vars) (env : Env) :
    setnsFlags (changeWork v env).trace = [] := by
  unfold changeWork
  repeat (first | split | simp [setnsFlags, calls, Call.nstype?])

theorem setnsFlags_forkStep (v : Vars) (env : Env) :
    setnsFlags (forkStep v env).trace = [] := by
  unfold forkStep
  repeat (first | split | simp [setnsFlags, calls, Call.nstype?])

theorem setnsFlags_dropCreds (v : Vars) (env : Env) :
    setnsFlags (dropCreds v env).trace = [] := by
  unfold dropCreds
  by_cases h1 : v.preserve = false <;> by_cases h2 : env.setgroups < 0 <;>
    by_cases h3 : v.gid = 0 <;> by_cases h4 : v.uid = 0 <;>
    simp [h1, h2, h3, h4, setnsFlags, calls, Call.nstype?]

theorem setnsFlags_execStep (cmd : List String) (env : Env) :
    setnsFlags (execStep cmd env).trace = [] := by
  unfold execStep
  split <;> simp [setnsFlags, calls, Call.nstype?]

theorem setnsFlags_pipeline (v : Vars) (cmd : List String) (env : Env) :
    setnsFlags (pipeline v cmd env).trace =
      setnsFlags (joinLoop v env (List.range 6)).trace := by
  unfold pipeline preCreds preFork
  rw [setnsFlags_finish _ _ (setnsFlags_execStep cmd env),
    setnsFlags_andThen _ _ (setnsFlags_dropCreds v env),
    setnsFlags_andThen _ _ (setnsFlags_forkStep v env),
    setnsFlags_andThen _ _ (setnsFlags_changeWork v env),
    setnsFlags_andThen _ _ (setnsFlags_relocateRoot v env)]

theorem joins_zero (v : Vars) (env : Env) :
    joins v env 0 = true ↔
      (v.ns_enable.getD 0 false = true ∧ ¬ (v.preserve = false ∧ env.geteuid ≠ 0)) := by
  unfold joins enabled
  cases v.ns_enable.getD 0 false <;> cases v.preserve <;>
    by_cases h : env.geteuid = 0 <;> simp [h]

theorem joins_succ (v : Vars) (env : Env) (i : Nat) :
    joins v env (i + 1) = v.ns_enable.getD (i + 1) false := by
  simp [joins, enabled]

theorem filter_joins_eq (v : Vars) (env : Env) :
    ((List.range 6).filter (fun i => joins v env i)).map flagOf =
      expectedJoins v.ns_enable v.preserve env.geteuid := by
  have hr : List.range 6 = [0, 1, 2, 3, 4, 5] := by decide
  have h0 := joins_zero v env
  have h1 := joins_succ v env 0
  have h2 := joins_succ v env 1
  have h3 := joins_succ v env 2
  have h4 := joins_succ v env 3
  have h5 := joins_succ v env 4
  simp only [Nat.zero_add, Nat.reduceAdd] at h1 h2 h3 h4 h5
  rw [hr]
  unfold expectedJoins
  simp only [List.filter_cons, List.filter_nil, h1, h2, h3, h4, h5]
  by_cases j0 : joins v env 0 = true
  · have e0 := h0.mp j0
    rw [if_pos e0]
    simp only [j0, if_true]
    cases v.ns_enable.getD 1 false <;> cases v.ns_enable.getD 2 false <;>
      cases v.ns_enable.getD 3 false <;> cases v.ns_enable.getD 4 false <;>
      cases v.ns_enable.getD 5 false <;> rfl
  · have e0 : ¬ (v.ns_enable.getD 0 false = true ∧ ¬ (v.preserve = false ∧ env.geteuid ≠ 0)) :=
      fun hx => j0 (h0.mpr hx)
    rw [if_neg e0]
    simp only [j0, if_false]
    cases v.ns_enable.getD 1 false <;> cases v.ns_enable.getD 2 false <;>
      cases v.ns_enable.getD 3 false <;> cases v.ns_enable.getD 4 false <;>
      cases v.ns_enable.getD 5 false <;> rfl

theorem expectedJoins_nodup (enable : List Bool) (preserve : Bool) (euid : Int) :
    (expectedJoins enable preserve euid).Nodup := by
  unfold expectedJoins
  by_cases h0 : enable.getD 0 false = true ∧ ¬ (preserve = false ∧ euid ≠ 0)
  · rw [if_pos h0]
    cases enable.getD 1 false <;> cases enable.getD 2 false <;>
      cases enable.getD 3 false <;> cases enable.getD 4 false <;>
      cases enable.getD 5 false <;> decide
  · rw [if_neg h0]
    cases enable.getD 1 false <;> cases enable.getD 2 false <;>
      cases enable.getD 3 false <;> cases enable.getD 4 false <;>
      cases enable.getD 5 false <;> decide

theorem joinOne_quiet (v : Vars) (env : Env) (i : Nat)
    (h : joins v env i = true → 0 ≤ env.open_ns i ∧ 0 ≤ env.setns i) :
    ∀ label, Event.perror label ∉ (joinOne v env i).trace := by
  intro label
  obtain ⟨probe, hprobe, hc⟩ := joinOne_cases v env i
  rcases hc with ⟨_, hc⟩ | ⟨hj, ho, _⟩ | ⟨hj, _, hn, _⟩ | ⟨_, _, _, hc⟩
  · rcases hprobe with rfl | rfl <;> rw [hc] <;> simp
  · exact absurd ho (not_lt.mpr (h hj).1)
  · exact absurd hn (not_lt.mpr (h hj).2)
  · rcases hprobe with rfl | rfl <;> rw [hc] <;> simp [open_ns]

theorem joinLoop_quiet (v : Vars) (env : Env) (is : List Nat)
    (h : ∀ i ∈ is, joins v env i = true → 0 ≤ env.open_ns i ∧ 0 ≤ env.setns i) :
    ∀ label, Event.perror label ∉ (joinLoop v env is).trace := by
  induction is with
  | nil => simp [joinLoop]
  | cons i is ih =>
    intro label hm
    rw [joinLoop, andThen_trace, List.mem_append] at hm
    rcases hm with hm | hm
    · exact joinOne_quiet v env i (h i (List.mem_cons_self _ _)) label hm
    · split at hm
      · exact ih (fun j hj => h j (List.mem_cons_of_mem _ hj)) label hm
      · simp at hm

/-! ## C1 -/

/-- C1: for every parsed configuration and environment of a well-formed
invocation in which no `open` or `setns` call of a kind that is attempted
fails, the namespace types passed to `setns` are, in order, user, ipc, uts,
net, pid, mnt restricted to the enabled kinds, user being left out when
credentials are not preserved and the effective uid is not 0; no kind is joined
twice, and the join loop neither ends the process nor writes a diagnostic. -/
theorem join_sequence (opts : List Opt) (rest : List String) (env : Env) (v : Vars)
    (hp : parseOpts Vars.init opts = some v) (hpid : v.pid ≠ 0) (hrest : rest ≠ [])
    (hok : ∀ i, i < 6 → joins v env i = true → 0 ≤ env.open_ns i ∧ 0 ≤ env.setns i) :
    setnsFlags (main opts rest env).trace =
        expectedJoins v.ns_enable v.preserve env.geteuid ∧
      (setnsFlags (main opts rest env).trace).Nodup ∧
      (joinLoop v env (List.range 6)).halt = none ∧
      (∀ label, Event.perror label ∉ (joinLoop v env (List.range 6)).trace) := by
  have h1 : setnsFlags (main opts rest env).trace =
      expectedJoins v.ns_enable v.preserve env.geteuid := by
    rw [main_eq_pipeline env hp hpid hrest, setnsFlags_pipeline,
      (joinLoop_ok v env (List.range 6) (fun i hi => hok i (List.mem_range.mp hi))).2,
      filter_joins_eq]
  exact ⟨h1, h1 ▸ expectedJoins_nodup _ _ _,
    (joinLoop_ok v env (List.range 6) (fun i hi => hok i (List.mem_range.mp hi))).1,
    joinLoop_quiet v env (List.range 6) (fun i hi => hok i (List.mem_range.mp hi))⟩

/-! ## C7 -/

theorem parseOpts_pid (opts : List Opt) (v0 v : Vars) (h : parseOpts v0 opts = some v) :
    v.pid = (targetArg opts).getD v0.pid := by
  induction opts generalizing v0 with
  | nil =>
    simp only [parseOpts, Option.some.injEq] at h
    simp [targetArg, h]
  | cons o os ih =>
    cases o <;> simp only [parseOpts, optStep] at h <;> first
      | exact absurd h (by simp)
      | (have h1 := ih _ h
         simp only [targetArg] at *
         first
           | exact h1
           | (rw [h1]; cases targetArg os <;> simp [Option.orElse]))

theorem parseOpts_gid (opts : List Opt) (v0 v : Vars) (h : parseOpts v0 opts = some v) :
    v.gid = (gidArg opts).getD v0.gid := by
  induction opts generalizing v0 with
  | nil =>
    simp only [parseOpts, Option.some.injEq] at h
    simp [gidArg, h]
  | cons o os ih =>
    cases o <;> simp only [parseOpts, optStep] at h <;> first
      | exact absurd h (by simp)
      | (have h1 := ih _ h
         simp only [gidArg] at *
         first
           | exact h1
           | (rw [h1]; cases gidArg os <;> simp [Option.orElse]))

theorem parseOpts_uid (opts : List Opt) (v0 v : Vars) (h : parseOpts v0 opts = some v) :
    v.uid = (uidArg opts).getD v0.uid := by
  induction opts generalizing v0 with
  | nil =>
    simp only [parseOpts, Option.some.injEq] at h
    simp [uidArg, h]
  | cons o os ih =>
    cases o <;> simp only [parseOpts, optStep] at h <;> first
      | exact absurd h (by simp)
      | (have h1 := ih _ h
         simp only [uidArg] at *
         first
           | exact h1
           | (rw [h1]; cases uidArg os <;> simp [Option.orElse]))

/-- The invocation check of line 120: when the target pid is 0 or absent, or
no argument is left at `argv[optind]`, `main` writes the usage line, returns 1
and makes no system call at all. -/
theorem invocation_error (opts : List Opt) (rest : List String) (env : Env)
    (h : (targetArg opts).getD 0 = 0 ∨ rest = []) :
    main opts rest env = ⟨[Event.usage], Outcome.exited 1⟩ ∧
      calls (main opts rest env).trace = [] ∧
      exitStatus env (main opts rest env) = 1 := by
  have hm : main opts rest env = ⟨[Event.usage], Outcome.exited 1⟩ := by
    unfold main
    cases hp : parseOpts Vars.init opts with
    | none => rfl
    | some v =>
      have hpid := parseOpts_pid opts Vars.init v hp
      have hc : v.pid = 0 ∨ rest = [] := by
        rcases h with h | h
        · left
          rw [hpid]
          exact h
        · right
          exact h
      simp only [hc, if_true]
  rw [hm]
  exact ⟨rfl, rfl, rfl⟩

theorem invocation_error_witness :
    ((targetArg [Opt.mount, Opt.target 0]).getD 0 = 0 ∨ ["sh"] = ([] : List String)) ∧
      main [Opt.mount, Opt.target 0] ["sh"] Env.ok = ⟨[Event.usage], Outcome.exited 1⟩ :=
  ⟨by decide, (invocation_error [Opt.mount, Opt.target 0] ["sh"] Env.ok (by decide)).1⟩

/-! ## Which calls each part of `main` makes -/

theorem forall_calls_andThen {P : Call → Prop} (a b : Step)
    (ha : ∀ c ∈ calls a.trace, P c) (hb : ∀ c ∈ calls b.trace, P c) :
    ∀ c ∈ calls (a.andThen b).trace, P c := by
  intro c hc
  rw [andThen_trace, calls_append, List.mem_append] at hc
  rcases hc with hc | hc
  · exact ha c hc
  · split at hc
    · exact hb c hc
    · simp [calls] at hc

theorem joinOne_kind (v : Vars) (env : Env) (i : Nat) :
    ∀ c ∈ calls (joinOne v env i).trace, c.kind = 0 := by
  obtain ⟨probe, hprobe, h⟩ := joinOne_cases v env i
  rcases hprobe with rfl | rfl <;>
    rcases h with ⟨_, h⟩ | ⟨_, _, h⟩ | ⟨_, _, _, h⟩ | ⟨_, _, _, h⟩ <;>
    rw [h] <;> simp [calls, open_ns, Call.kind]

theorem joinLoop_kind (v : Vars) (env : Env) (is : List Nat) :
    ∀ c ∈ calls (joinLoop v env is).trace, c.kind = 0 := by
  induction is with
  | nil => simp [joinLoop, calls]
  | cons i is ih =>
    rw [joinLoop]
    exact forall_calls_andThen _ _ (joinOne_kind v env i) ih

theorem relocateRoot_kind (v : Vars) (env : Env) :
    ∀ c ∈ calls (relocateRoot v env).trace, c.kind ≤ 1 := by
  unfold relocateRoot
  cases v.root with
  | none => simp [calls]
  | some root =>
    by_cases h1 : env.open_root < 0 <;> by_cases h2 : env.fchdir < 0 <;>
      by_cases h3 : env.chroot < 0 <;> simp [h1, h2, h3, calls, open_ns, Call.kind]

theorem changeWork_kind (v : Vars) (env : Env) :
    ∀ c ∈ calls (changeWork v env).trace, c.kind = 2 := by
  unfold changeWork
  cases v.work with
  | none => simp [calls]
  | some work => by_cases h1 : env.chdir < 0 <;> simp [h1, calls, Call.kind]

theorem forkStep_kind (v : Vars) (env : Env) :
    ∀ c ∈ calls (forkStep v env).trace, c.kind = 3 := by
  unfold forkStep
  by_cases h : v.nofork = false ∧ enabled v 4 = true
  · rw [if_pos h]
    by_cases h1 : env.fork < 0 <;> by_cases h2 : env.fork > 0 <;>
      simp [h1, h2, calls, Call.kind]
  · rw [if_neg h]
    simp [calls]

theorem dropCreds_kind (v : Vars) (env : Env) :
    ∀ c ∈ calls (dropCreds v env).trace, c.kind = 4 := by
  unfold dropCreds
  by_cases h1 : v.preserve = false <;> by_cases h2 : env.setgroups < 0 <;>
    by_cases h3 : v.gid = 0 <;> by_cases h4 : v.uid = 0 <;>
    simp [h1, h2, h3, h4, calls, Call.kind]

theorem execStep_kind (cmd : List String) (env : Env) :
    ∀ c ∈ calls (execStep cmd env).trace, c.kind = 5 := by
  unfold execStep
  cases env.execvp <;> simp [calls, Call.kind]

theorem preFork_kind (v : Vars) (env : Env) :
    ∀ c ∈ calls (preFork v env).trace, c.kind ≤ 2 := by
  unfold preFork
  refine forall_calls_andThen _ _ (forall_calls_andThen _ _ ?_ ?_) ?_
  · intro c hc
    rw [joinLoop_kind v env _ c hc]
    exact Nat.zero_le _
  · intro c hc
    exact Nat.le_succ_of_le (relocateRoot_kind v env c hc)
  · intro c hc
    rw [changeWork_kind v env c hc]

/-! ## Fatal failures end the process -/

theorem fatalStops_of_clean (h : Option Outcome) (t : List Event)
    (ht : ∀ e ∈ t, e.fatalFailure = false) : FatalStops h t := by
  induction t with
  | nil => trivial
  | cons e t ih =>
    refine ⟨fun he => ?_, ih (fun x hx => ht x (List.mem_cons_of_mem _ hx))⟩
    rw [ht e (List.mem_cons_self _ _)] at he
    exact absurd he (by simp)

theorem fatalStops_append (h : Option Outcome) (a b : List Event)
    (ha : ∀ e ∈ a, e.fatalFailure = false) (hb : FatalStops h b) : FatalStops h (a ++ b) := by
  induction a with
  | nil => exact hb
  | cons e a ih =>
    refine ⟨fun he => ?_, ih (fun x hx => ha x (List.mem_cons_of_mem _ hx))⟩
    rw [ha e (List.mem_cons_self _ _)] at he
    exact absurd he (by simp)

theorem fatalStops_split (h : Option Outcome) (pre post : List Event) (e : Event)
    (hs : FatalStops h (pre ++ e :: post)) (he : e.fatalFailure = true) :
    (∃ label, post = [Event.perror label]) ∧ h = some (Outcome.exited 1) := by
  induction pre with
  | nil => exact hs.1 he
  | cons x pre ih => exact ih hs.2

theorem sound_andThen (a b : Step) (ha : a.Sound) (hb : b.Sound) : (a.andThen b).Sound := by
  cases hh : a.halt with
  | some o =>
    rw [andThen_of_some b hh]
    refine ⟨?_, fun hn => absurd hn (by simp)⟩
    have := ha.1
    rw [hh] at this
    exact this
  | none =>
    rw [andThen_of_none b hh]
    refine ⟨fatalStops_append _ _ _ (ha.2 hh) hb.1, fun hn e he => ?_⟩
    rcases List.mem_append.mp he with he | he
    · exact ha.2 hh e he
    · exact hb.2 hn e he

theorem sound_finish (a : Step) (k : Run) (ha : a.Sound)
    (hk : FatalStops (some k.outcome) k.trace) :
    FatalStops (some (a.finish k).outcome) (a.finish k).trace := by
  cases hh : a.halt with
  | some o =>
    rw [finish_of_some k hh]
    have := ha.1
    rw [hh] at this
    exact this
  | none =>
    rw [finish_of_none k hh]
    exact fatalStops_append _ _ _ (ha.2 hh) hk

theorem joinOne_sound (v : Vars) (env : Env) (i : Nat) : (joinOne v env i).Sound := by
  obtain ⟨probe, hprobe, h⟩ := joinOne_cases v env i
  rcases h with ⟨_, h⟩ | ⟨_, ho, h⟩ | ⟨_, ho, hn, h⟩ | ⟨_, ho, hn, h⟩
  · rcases hprobe with rfl | rfl <;> rw [h] <;>
      simp [Step.Sound, FatalStops, Event.fatalFailure, Call.fatal]
  · rcases hprobe with rfl | rfl <;> rw [h] <;>
      simp [Step.Sound, FatalStops, Event.fatalFailure, Call.fatal, open_ns]
  · rcases hprobe with rfl | rfl <;> rw [h] <;>
      simp [Step.Sound, FatalStops, Event.fatalFailure, Call.fatal, open_ns, not_lt.mpr ho]
  · rcases hprobe with rfl | rfl <;> rw [h] <;>
      simp [Step.Sound, FatalStops, Event.fatalFailure, Call.fatal, open_ns, not_lt.mpr ho,
        not_lt.mpr hn]

theorem joinLoop_sound (v : Vars) (env : Env) (is : List Nat) : (joinLoop v env is).Sound := by
  induction is with
  | nil => simp [joinLoop, Step.Sound, FatalStops]
  | cons i is ih =>
    rw [joinLoop]
    exact sound_andThen _ _ (joinOne_sound v env i) ih

theorem relocateRoot_sound (v : Vars) (env : Env) : (relocateRoot v env).Sound := by
  unfold relocateRoot
  cases v.root with
  | none => simp [Step.Sound, FatalStops]
  | some root =>
    by_cases h1 : env.open_root < 0 <;> by_cases h2 : env.fchdir < 0 <;>
      by_cases h3 : env.chroot < 0 <;>
      simp [h1, h2, h3, Step.Sound, FatalStops, Event.fatalFailure, Call.fatal, open_ns]

theorem changeWork_sound (v : Vars) (env : Env) : (changeWork v env).Sound := by
  unfold changeWork
  cases v.work with
  | none => simp [Step.Sound, FatalStops]
  | some work =>
    by_cases h1 : env.chdir < 0 <;>
      simp [h1, Step.Sound, FatalStops, Event.fatalFailure, Call.fatal]

theorem forkStep_sound (v : Vars) (env : Env) : (forkStep v env).Sound := by
  unfold forkStep
  by_cases h : v.nofork = false ∧ enabled v 4 = true
  · rw [if_pos h]
    by_cases h1 : env.fork < 0 <;> by_cases h2 : env.fork > 0 <;>
      simp [h1, h2, Step.Sound, FatalStops, Event.fatalFailure, Call.fatal]
  · rw [if_neg h]
    simp [Step.Sound, FatalStops]

theorem dropCreds_sound (v : Vars) (env : Env) : (dropCreds v env).Sound := by
  unfold dropCreds
  by_cases h1 : v.preserve = false <;> by_cases h2 : env.setgroups < 0 <;>
    by_cases h3 : v.gid = 0 <;> by_cases h4 : v.uid = 0 <;>
    simp [h1, h2, h3, h4, Step.Sound, FatalStops, Event.fatalFailure, Call.fatal]

theorem execStep_sound (cmd : List String) (env : Env) :
    FatalStops (some (execStep cmd env).outcome) (execStep cmd env).trace := by
  unfold execStep
  cases env.execvp <;> simp [FatalStops, Event.fatalFailure, Call.fatal]

theorem preFork_sound (v : Vars) (env : Env) : (preFork v env).Sound :=
  sound_andThen _ _ (sound_andThen _ _ (joinLoop_sound v env _) (relocateRoot_sound v env))
    (changeWork_sound v env)

theorem preCreds_sound (v : Vars) (env : Env) : (preCreds v env).Sound :=
  sound_andThen _ _ (preFork_sound v env) (forkStep_sound v env)

theorem main_fatalStops (opts : List Opt) (rest : List String) (env : Env) :
    FatalStops (some (main opts rest env).outcome) (main opts rest env).trace := by
  cases hp : parseOpts Vars.init opts with
  | none => simp [main, hp, FatalStops, Event.fatalFailure]
  | some v =>
    by_cases hc : v.pid = 0 ∨ rest = []
    · simp only [main, hp, if_pos hc]
      simp [FatalStops, Event.fatalFailure]
    · simp only [main, hp, if_neg hc]
      exact sound_finish _ _ (sound_andThen _ _ (preCreds_sound v env) (dropCreds_sound v env))
        (execStep_sound _ env)

/-! ## C4 -/

/-- C4: in every run of `main`, a failed call to `open`, `setns`, `fchdir`,
`chroot`, `chdir`, `fork` or `execvp` is followed by exactly one `perror`
diagnostic and no other event (no later join, chroot, chdir, fork, credential
call or exec), and the process ends with exit status 1. -/
theorem fatal_failure_terminates (opts : List Opt) (rest : List String) (env : Env)
    (pre post : List Event) (c : Call) (r : Int)
    (ht : (main opts rest env).trace = pre ++ Event.call c r :: post)
    (hc : c.fatal = true) (hr : r < 0) :
    (∃ label, post = [Event.perror label]) ∧
      (main opts rest env).outcome = Outcome.exited 1 ∧
      exitStatus env (main opts rest env) = 1 := by
  have hs := main_fatalStops opts rest env
  rw [ht] at hs
  have hf : (Event.call c r).fatalFailure = true := by
    simp [Event.fatalFailure, hc, hr]
  obtain ⟨h1, h2⟩ := fatalStops_split _ pre post _ hs hf
  have h3 : (main opts rest env).outcome = Outcome.exited 1 := by
    simpa using h2
  refine ⟨h1, h3, ?_⟩
  simp [exitStatus, h3]

/-! ## The fork decision: C3 and C2 -/

theorem dropCreds_halt (v : Vars) (env : Env) : (dropCreds v env).halt = none := by
  unfold dropCreds
  split <;> rfl

theorem preCreds_kind (v : Vars) (env : Env) :
    ∀ c ∈ calls (preCreds v env).trace, c.kind ≤ 3 := by
  unfold preCreds
  refine forall_calls_andThen _ _ ?_ ?_
  · intro c hc
    exact Nat.le_succ_of_le (preFork_kind v env c hc)
  · intro c hc
    rw [forkStep_kind v env c hc]

theorem count_fork_of_kind (l : List Call) (h : ∀ c ∈ l, c.kind ≠ 3) :
    l.count Call.fork = 0 :=
  List.count_eq_zero.mpr (fun hm => h _ hm rfl)

theorem count_fork_andThen (a b : Step) (hb : (calls b.trace).count Call.fork = 0) :
    (calls (a.andThen b).trace).count Call.fork = (calls a.trace).count Call.fork := by
  rw [andThen_trace, calls_append, List.count_append]
  split
  · rw [hb, Nat.add_zero]
  · simp [calls]

theorem count_fork_finish (a : Step) (k : Run) (hk : (calls k.trace).count Call.fork = 0) :
    (calls (a.finish k).trace).count Call.fork = (calls a.trace).count Call.fork := by
  rw [finish_trace, calls_append, List.count_append]
  split
  · rw [hk, Nat.add_zero]
  · simp [calls]

theorem count_fork_forkStep (v : Vars) (env : Env) :
    (calls (forkStep v env).trace).count Call.fork =
      if v.nofork = false ∧ enabled v 4 = true then 1 else 0 := by
  unfold forkStep
  by_cases h : v.nofork = false ∧ enabled v 4 = true
  · rw [if_pos h, if_pos h]
    by_cases h1 : env.fork < 0 <;> by_cases h2 : env.fork > 0 <;>
      simp [h1, h2, calls]
  · rw [if_neg h, if_neg h]
    simp [calls]

theorem forkStep_skip (v : Vars) (env : Env) (h : ¬ (v.nofork = false ∧ enabled v 4 = true)) :
    forkStep v env = ⟨[], none⟩ := by
  unfold forkStep
  rw [if_neg h]

theorem forkStep_parent (v : Vars) (env : Env) (h : v.nofork = false ∧ enabled v 4 = true)
    (hc : 0 < env.fork) :
    forkStep v env =
      ⟨[Event.call Call.fork env.fork, Event.call (Call.waitpid env.fork) env.waitpid],
        some (Outcome.exited 0)⟩ := by
  unfold forkStep
  rw [if_pos h, if_neg (not_lt.mpr (le_of_lt hc)), if_pos hc]
  rfl

theorem calls_execStep (cmd : List String) (env : Env) :
    calls (execStep cmd env).trace = [Call.execvp cmd.head? cmd] := by
  unfold execStep
  cases env.execvp <;> simp [calls]

/-- C3: in every run that reaches the fork decision, `fork` is called exactly
once if the pid namespace is enabled and `nofork` is not set, and not at all
otherwise; without a fork the same process continues with the credential drop
and ends with the `execvp` call. -/
theorem fork_decision (opts : List Opt) (rest : List String) (env : Env) (v : Vars)
    (hp : parseOpts Vars.init opts = some v) (hpid : v.pid ≠ 0) (hrest : rest ≠ [])
    (hreach : (preFork v env).halt = none) :
    (calls (main opts rest env).trace).count Call.fork =
        (if v.nofork = false ∧ enabled v 4 = true then 1 else 0) ∧
      (¬ (v.nofork = false ∧ enabled v 4 = true) →
        (main opts rest env).trace =
            (preFork v env).trace ++ (dropCreds v env).trace ++
              (execStep (stripMarker rest) env).trace ∧
          (main opts rest env).outcome = (execStep (stripMarker rest) env).outcome ∧
          (calls (main opts rest env).trace).getLast? =
            some (Call.execvp (stripMarker rest).head? (stripMarker rest))) := by
  rw [main_eq_pipeline env hp hpid hrest]
  constructor
  · unfold pipeline preCreds
    have h1 : (calls (preFork v env).trace).count Call.fork = 0 :=
      count_fork_of_kind _ (fun c hc hk => by
        have := preFork_kind v env c hc
        omega)
    have h2 : (calls (dropCreds v env).trace).count Call.fork = 0 :=
      count_fork_of_kind _ (fun c hc hk => by
        have := dropCreds_kind v env c hc
        omega)
    have h3 : (calls (execStep (stripMarker rest) env).trace).count Call.fork = 0 :=
      count_fork_of_kind _ (fun c hc hk => by
        have := execStep_kind _ env c hc
        omega)
    rw [count_fork_finish _ _ h3, count_fork_andThen _ _ h2, andThen_of_none _ hreach]
    simp only [calls_append, List.count_append]
    rw [h1, count_fork_forkStep, Nat.zero_add]
  · intro hno
    have hpc : preCreds v env = ⟨(preFork v env).trace, none⟩ := by
      unfold preCreds
      rw [andThen_of_none _ hreach, forkStep_skip v env hno, List.append_nil]
    have hrun : pipeline v (stripMarker rest) env =
        ⟨(preFork v env).trace ++ (dropCreds v env).trace ++
          (execStep (stripMarker rest) env).trace,
          (execStep (stripMarker rest) env).outcome⟩ := by
      unfold pipeline
      rw [hpc, andThen_of_none _ rfl, finish_of_none _ (by exact dropCreds_halt v env)]
    rw [hrun]
    refine ⟨rfl, rfl, ?_⟩
    simp [calls_append, calls_execStep]

theorem fork_decision_witness :
    (preFork (Vars.mk 1 0 0 false false none none [false, false, false, false, true, false])
        Env.ok).halt = none ∧
      (calls (main [Opt.target 1, Opt.pid] ["sh"] Env.ok).trace).count Call.fork = 1 :=
  ⟨by decide,
    (fork_decision [Opt.target 1, Opt.pid] ["sh"] Env.ok
      (Vars.mk 1 0 0 false false none none [false, false, false, false, true, false])
      (by decide) (by decide) (by decide) (by decide)).1⟩

/-- C2, as the code has it: in every run in which the pid namespace is
selected, `nofork` is not set and `fork` succeeds, the parent waits for the
child and then returns 0: its exit status is 0 whatever the status of the
child. -/
theorem parent_exits_zero (opts : List Opt) (rest : List String) (env : Env) (v : Vars)
    (hp : parseOpts Vars.init opts = some v) (hpid : v.pid ≠ 0) (hrest : rest ≠ [])
    (hreach : (preFork v env).halt = none)
    (hsel : enabled v 4 = true) (hnf : v.nofork = false) (hfork : 0 < env.fork) :
    (main opts rest env).outcome = Outcome.exited 0 ∧
      exitStatus env (main opts rest env) = 0 ∧
      (calls (main opts rest env).trace).getLast? = some (Call.waitpid env.fork) := by
  have hpc : preCreds v env =
      ⟨(preFork v env).trace ++
        [Event.call Call.fork env.fork, Event.call (Call.waitpid env.fork) env.waitpid],
        some (Outcome.exited 0)⟩ := by
    unfold preCreds
    rw [andThen_of_none _ hreach, forkStep_parent v env ⟨hnf, hsel⟩ hfork]
  have hrun : main opts rest env =
      ⟨(preFork v env).trace ++
        [Event.call Call.fork env.fork, Event.call (Call.waitpid env.fork) env.waitpid],
        Outcome.exited 0⟩ := by
    rw [main_eq_pipeline env hp hpid hrest]
    unfold pipeline
    rw [hpc, andThen_of_some _ rfl, finish_of_some _ rfl]
  rw [hrun]
  refine ⟨rfl, rfl, ?_⟩
  simp [calls_append, calls]

theorem parent_exits_zero_witness :
    (0 : Int) < Env.parent.fork ∧
      exitStatus Env.parent (main [Opt.target 1, Opt.pid] ["sh"] Env.parent) = 0 :=
  ⟨by decide,
    (parent_exits_zero [Opt.target 1, Opt.pid] ["sh"] Env.parent
      (Vars.mk 1 0 0 false false none none [false, false, false, false, true, false])
      (by decide) (by decide) (by decide) (by decide) (by decide) (by decide)
      (by decide)).2.1⟩

/-- C2 as stated fails: with `-t 1 -p -- sh`, a successful fork and a child
whose program ends with status 7, the child's exit status is 7 and the
parent's is 0. -/
theorem parent_status_not_relayed :
    enabled (Vars.mk 1 0 0 false false none none [false, false, false, false, true, false]) 4
        = true ∧
      parseOpts Vars.init [Opt.target 1, Opt.pid] =
        some (Vars.mk 1 0 0 false false none none [false, false, false, false, true, false]) ∧
      exitStatus Env.child (main [Opt.target 1, Opt.pid] ["sh"] Env.child) = 7 ∧
      exitStatus Env.parent (main [Opt.target 1, Opt.pid] ["sh"] Env.parent) = 0 ∧
      exitStatus Env.parent (main [Opt.target 1, Opt.pid] ["sh"] Env.parent) ≠
        exitStatus Env.child (main [Opt.target 1, Opt.pid] ["sh"] Env.child) := by
  decide

/-! ## The credential drop: C5, C9, C10 -/

theorem pipeline_of_reach (v : Vars) (cmd : List String) (env : Env)
    (hreach : (preCreds v env).halt = none) :
    pipeline v cmd env =
      ⟨(preCreds v env).trace ++ (dropCreds v env).trace ++ (execStep cmd env).trace,
        (execStep cmd env).outcome⟩ := by
  unfold pipeline
  rw [andThen_of_none _ hreach, finish_of_none _ (by exact dropCreds_halt v env)]

theorem credCalls_of_kind (t : List Event) (h : ∀ c ∈ calls t, c.kind ≠ 4) :
    credCalls t = [] := by
  unfold credCalls
  rw [List.filter_eq_nil_iff]
  intro c hc
  have hk := h c hc
  cases c <;> simp [Call.kind, Call.isCred] at hk ⊢

theorem credCalls_dropCreds (v : Vars) (env : Env) :
    credCalls (dropCreds v env).trace =
      if v.preserve = true then []
      else [Call.setgroups 0] ++ (if v.gid = 0 then [] else [Call.setgid v.gid]) ++
        (if v.uid = 0 then [] else [Call.setuid v.uid]) := by
  unfold dropCreds
  by_cases h1 : v.preserve = false <;> by_cases h2 : env.setgroups < 0 <;>
    by_cases h3 : v.gid = 0 <;> by_cases h4 : v.uid = 0 <;>
    simp [h1, h2, h3, h4, credCalls, calls, Call.isCred]

theorem codeCredCalls_eq (opts : List Opt) (v : Vars)
    (hp : parseOpts Vars.init opts = some v) :
    codeCredCalls (gidArg opts) (uidArg opts) =
      [Call.setgroups 0] ++ (if v.gid = 0 then [] else [Call.setgid v.gid]) ++
        (if v.uid = 0 then [] else [Call.setuid v.uid]) := by
  have hg := parseOpts_gid opts Vars.init v hp
  have hu := parseOpts_uid opts Vars.init v hp
  unfold codeCredCalls
  rw [hg, hu]
  cases gidArg opts <;> cases uidArg opts <;> simp [Vars.init]

/-- C5, as the code has it: in every run that reaches the credential drop,
with `preserve` unset the credential calls are, in this order, `setgroups(0)`,
then `setgid(g)` if and only if a gid g other than 0 was specified, then
`setuid(u)` if and only if a uid u other than 0 was specified; with `preserve`
set none of the three calls is made. -/
theorem credential_calls (opts : List Opt) (rest : List String) (env : Env) (v : Vars)
    (hp : parseOpts Vars.init opts = some v) (hpid : v.pid ≠ 0) (hrest : rest ≠ [])
    (hreach : (preCreds v env).halt = none) :
    credCalls (main opts rest env).trace =
      if v.preserve = true then [] else codeCredCalls (gidArg opts) (uidArg opts) := by
  rw [main_eq_pipeline env hp hpid hrest, pipeline_of_reach v _ env hreach]
  simp only [credCalls_append]
  have h1 : credCalls (preCreds v env).trace = [] :=
    credCalls_of_kind _ (fun c hc hk => by
      have := preCreds_kind v env c hc
      omega)
  have h2 : credCalls (execStep (stripMarker rest) env).trace = [] :=
    credCalls_of_kind _ (fun c hc hk => by
      have := execStep_kind _ env c hc
      omega)
  rw [h1, h2, credCalls_dropCreds, codeCredCalls_eq opts v hp, List.nil_append,
    List.append_nil]

theorem credential_calls_witness :
    (preCreds (Vars.mk 1 1000 100 false false none none [false, false, false, false, false, false])
        Env.ok).halt = none ∧
      credCalls (main [Opt.target 1, Opt.setgid 100, Opt.setuid 1000] ["sh"] Env.ok).trace =
        [Call.setgroups 0, Call.setgid 100, Call.setuid 1000] :=
  ⟨by decide,
    credential_calls [Opt.target 1, Opt.setgid 100, Opt.setuid 1000] ["sh"] Env.ok
      (Vars.mk 1 1000 100 false false none none [false, false, false, false, false, false])
      (by decide) (by decide) (by decide) (by decide)⟩

/-- C5 as stated fails: with `-t 1 -G 0 -- sh` a gid (0) is specified and
credentials are not preserved, yet the only credential call is `setgroups`;
`setgid(0)` is not called. -/
theorem setgid_zero_not_called :
    gidArg [Opt.target 1, Opt.setgid 0] = some 0 ∧
      credCalls (main [Opt.target 1, Opt.setgid 0] ["sh"] Env.ok).trace = [Call.setgroups 0] ∧
      credCalls (main [Opt.target 1, Opt.setgid 0] ["sh"] Env.ok).trace ≠
        specCredCalls (gidArg [Opt.target 1, Opt.setgid 0])
          (uidArg [Opt.target 1, Opt.setgid 0]) := by
  decide

/-- C9: in every run that reaches the credential drop, whatever `setgroups`,
`setgid` and `setuid` return, the last call of the process is
`execvp(cmd[0], cmd)` with the command of the invocation, and the outcome and
exit status are those of the run in which the three calls return something
else. -/
theorem credential_results_ignored (opts : List Opt) (rest : List String) (env : Env)
    (v : Vars) (hp : parseOpts Vars.init opts = some v) (hpid : v.pid ≠ 0)
    (hrest : rest ≠ []) (hreach : (preCreds v env).halt = none) (sg gi ui : Int) :
    (calls (main opts rest
        { env with setgroups := sg, setgid := gi, setuid := ui }).trace).getLast? =
        some (Call.execvp (stripMarker rest).head? (stripMarker rest)) ∧
      (main opts rest { env with setgroups := sg, setgid := gi, setuid := ui }).outcome =
        (main opts rest env).outcome ∧
      exitStatus { env with setgroups := sg, setgid := gi, setuid := ui }
          (main opts rest { env with setgroups := sg, setgid := gi, setuid := ui }) =
        exitStatus env (main opts rest env) := by
  have hsame : preCreds v { env with setgroups := sg, setgid := gi, setuid := ui } =
      preCreds v env := rfl
  have hreach2 : (preCreds v { env with setgroups := sg, setgid := gi, setuid := ui }).halt =
      none := by
    rw [hsame]
    exact hreach
  have hexec : execStep (stripMarker rest)
      { env with setgroups := sg, setgid := gi, setuid := ui } =
      execStep (stripMarker rest) env := rfl
  rw [main_eq_pipeline _ hp hpid hrest, main_eq_pipeline env hp hpid hrest,
    pipeline_of_reach v _ _ hreach2, pipeline_of_reach v _ env hreach, hexec]
  refine ⟨?_, rfl, rfl⟩
  simp [calls_append, calls_execStep]

theorem credential_results_ignored_witness :
    (preCreds (Vars.mk 1 0 100 false false none none [false, false, false, false, false, false])
        Env.ok).halt = none ∧
      (main [Opt.target 1, Opt.setgid 100] ["sh"]
          { Env.ok with setgroups := -1, setgid := -1, setuid := -1 }).outcome =
        (main [Opt.target 1, Opt.setgid 100] ["sh"] Env.ok).outcome :=
  ⟨by decide,
    (credential_results_ignored [Opt.target 1, Opt.setgid 100] ["sh"] Env.ok
      (Vars.mk 1 0 100 false false none none [false, false, false, false, false, false])
      (by decide) (by decide) (by decide) (by decide) (-1) (-1) (-1)).2.1⟩

/-- C10 at a failing input: with `-t 1 -G 100 -- sh` and a `setgid` that
fails, the failed call is followed directly by `execvp`; nothing is written to
stderr. -/
theorem setgid_failure_not_reported :
    main [Opt.target 1, Opt.setgid 100] ["sh"] { Env.ok with setgid := -1 } =
      ⟨[Event.call (Call.setgroups 0) 0, Event.call (Call.setgid 100) (-1),
          Event.noreturn (Call.execvp (some "sh") ["sh"])],
        Outcome.replaced ["sh"]⟩ := by
  decide

/-- C8 at a failing input: with `-t 1 -- --` the argument left at
`argv[optind]` is the marker alone; the invocation check passes, the marker is
stripped, and `execvp` is called with a null program name and an empty
vector (here it returns -1 and the process ends with status 1). -/
theorem exec_with_empty_command :
    main [Opt.target 1] ["--"] { Env.ok with execvp := some (-1) } =
      ⟨[Event.call (Call.setgroups 0) 0, Event.call (Call.execvp none []) (-1),
          Event.perror "exec"],
        Outcome.exited 1⟩ := by
  decide

/-! ## Order of the root change: C6 -/

theorem andThen_split (a b : Step) (pre post : List Event) (e : Event)
    (h : (a.andThen b).trace = pre ++ e :: post) :
    (∃ post1, a.trace = pre ++ e :: post1) ∨
      (a.halt = none ∧ ∃ pre1, pre = a.trace ++ pre1 ∧ b.trace = pre1 ++ e :: post) := by
  cases hh : a.halt with
  | some o =>
    rw [andThen_of_some b hh] at h
    exact Or.inl ⟨post, h⟩
  | none =>
    rw [andThen_of_none b hh] at h
    rcases List.append_eq_append_iff.mp h with ⟨m, h1, h2⟩ | ⟨m, h1, h2⟩
    · exact Or.inr ⟨rfl, m, h1, h2⟩
    · cases m with
      | nil =>
        refine Or.inr ⟨rfl, [], ?_, ?_⟩
        · simpa using h1.symm
        · simpa using h2.symm
      | cons x m =>
        simp only [List.cons_append, List.cons.injEq] at h2
        obtain ⟨hx, _⟩ := h2
        subst hx
        exact Or.inl ⟨m, h1⟩

theorem finish_split (a : Step) (k : Run) (pre post : List Event) (e : Event)
    (h : (a.finish k).trace = pre ++ e :: post) :
    (∃ post1, a.trace = pre ++ e :: post1) ∨
      (a.halt = none ∧ ∃ pre1, pre = a.trace ++ pre1 ∧ k.trace = pre1 ++ e :: post) := by
  have h2 : (a.andThen ⟨k.trace, none⟩).trace = pre ++ e :: post := by
    rw [andThen_trace]
    rw [finish_trace] at h
    exact h
  exact andThen_split a ⟨k.trace, none⟩ pre post e h2

theorem mem_calls_of_split {t pre post : List Event} {c : Call} {r : Int}
    (h : t = pre ++ Event.call c r :: post) : c ∈ calls t := by
  rw [h, calls_append]
  simp [calls]

theorem calls_subset_of_split {t pre post : List Event} {e : Event}
    (h : t = pre ++ e :: post) : ∀ c ∈ calls pre, c ∈ calls t := by
  intro c hc
  rw [h, calls_append]
  exact List.mem_append_left _ hc

/-- Where an event of the pipeline sits: in which part, after which completed
parts. -/
theorem pipeline_split (v : Vars) (cmd : List String) (env : Env)
    (pre post : List Event) (e : Event)
    (h : (pipeline v cmd env).trace = pre ++ e :: post) :
    (∃ post1, (joinLoop v env (List.range 6)).trace = pre ++ e :: post1) ∨
    ((joinLoop v env (List.range 6)).halt = none ∧ ∃ pre1 post1,
        pre = (joinLoop v env (List.range 6)).trace ++ pre1 ∧
        (relocateRoot v env).trace = pre1 ++ e :: post1) ∨
    (((joinLoop v env (List.range 6)).andThen (relocateRoot v env)).halt = none ∧
      ∃ pre1 post1,
        pre = ((joinLoop v env (List.range 6)).andThen (relocateRoot v env)).trace ++ pre1 ∧
        (changeWork v env).trace = pre1 ++ e :: post1) ∨
    (∃ pre1 post1, (forkStep v env).trace = pre1 ++ e :: post1) ∨
    (∃ pre1 post1, (dropCreds v env).trace = pre1 ++ e :: post1) ∨
    (∃ pre1 post1, (execStep cmd env).trace = pre1 ++ e :: post1) := by
  unfold pipeline preCreds preFork at h
  rcases finish_split _ _ _ _ _ h with ⟨p1, h1⟩ | ⟨_, q, _, h1⟩
  · rcases andThen_split _ _ _ _ _ h1 with ⟨p2, h2⟩ | ⟨_, q, _, h2⟩
    · rcases andThen_split _ _ _ _ _ h2 with ⟨p3, h3⟩ | ⟨_, q, _, h3⟩
      · rcases andThen_split _ _ _ _ _ h3 with ⟨p4, h4⟩ | ⟨hh, q, hq, h4⟩
        · rcases andThen_split _ _ _ _ _ h4 with ⟨p5, h5⟩ | ⟨hh, q, hq, h5⟩
          · exact Or.inl ⟨p5, h5⟩
          · exact Or.inr (Or.inl ⟨hh, q, p4, hq, h5⟩)
        · exact Or.inr (Or.inr (Or.inl ⟨hh, q, p3, hq, h4⟩))
      · exact Or.inr (Or.inr (Or.inr (Or.inl ⟨q, p2, h3⟩)))
    · exact Or.inr (Or.inr (Or.inr (Or.inr (Or.inl ⟨q, p1, h2⟩))))
  · exact Or.inr (Or.inr (Or.inr (Or.inr (Or.inr ⟨q, post, h1⟩))))

theorem joinLoop_joined (v : Vars) (env : Env) (is : List Nat)
    (hh : (joinLoop v env is).halt = none) (i : Nat) (hi : i ∈ is)
    (hj : joins v env i = true) :
    Event.call (Call.setns (env.open_ns i) (flagOf i)) (env.setns i) ∈
        (joinLoop v env is).trace ∧ 0 ≤ env.setns i := by
  induction is with
  | nil => simp at hi
  | cons j is ih =>
    rw [joinLoop] at hh ⊢
    obtain ⟨h1, h2⟩ := andThen_halt_none.mp hh
    rw [andThen_of_none _ h1]
    rcases List.mem_cons.mp hi with rfl | hi
    · obtain ⟨probe, _, hc⟩ := joinOne_cases v env i
      rcases hc with ⟨hf, _⟩ | ⟨_, _, hc⟩ | ⟨_, _, _, hc⟩ | ⟨_, _, hn, hc⟩
      · rw [hj] at hf
        exact absurd hf (by simp)
      · rw [hc] at h1
        exact absurd h1 (by simp)
      · rw [hc] at h1
        exact absurd h1 (by simp)
      · refine ⟨?_, hn⟩
        rw [hc]
        simp
    · obtain ⟨h3, h4⟩ := ih h2 hi
      exact ⟨List.mem_append_right _ h3, h4⟩

theorem relocateRoot_done (v : Vars) (env : Env) (hroot : v.root.isSome = true)
    (hh : (relocateRoot v env).halt = none) :
    Event.call (Call.chroot ".") env.chroot ∈ (relocateRoot v env).trace ∧ 0 ≤ env.chroot := by
  unfold relocateRoot at hh ⊢
  cases hr : v.root with
  | none => simp [hr] at hroot
  | some root =>
    simp only [hr] at hh ⊢
    by_cases h1 : env.open_root < 0 <;> by_cases h2 : env.fchdir < 0 <;>
      by_cases h3 : env.chroot < 0 <;> simp [h1, h2, h3] at hh ⊢
    exact not_lt.mp h3

/-- C6: in every run with a root path supplied and the mount namespace
selected, a `chroot` call is preceded by the completed `setns` call for the
mount namespace and by no credential call (`setgroups`, `setgid`, `setuid`),
and the `chdir` into the working directory is preceded by the completed
`chroot`. -/
theorem root_change_order (opts : List Opt) (rest : List String) (env : Env) (v : Vars)
    (hp : parseOpts Vars.init opts = some v) (hpid : v.pid ≠ 0) (hrest : rest ≠ [])
    (hroot : v.root.isSome = true) (hmnt : enabled v 5 = true) :
    (∀ pre post path r,
        (main opts rest env).trace = pre ++ Event.call (Call.chroot path) r :: post →
        (∃ fd r1, Event.call (Call.setns fd CLONE_NEWNS) r1 ∈ pre ∧ 0 ≤ r1) ∧
          (∀ c ∈ calls pre, c.isCred = false)) ∧
      (∀ pre post dir r,
        (main opts rest env).trace = pre ++ Event.call (Call.chdir dir) r :: post →
        ∃ path r1, Event.call (Call.chroot path) r1 ∈ pre ∧ 0 ≤ r1) := by
  rw [main_eq_pipeline env hp hpid hrest]
  constructor
  · intro pre post path r ht
    rcases pipeline_split v _ env _ _ _ ht with
      ⟨_, h⟩ | ⟨hh, pre1, post1, hpre, h⟩ | ⟨_, _, _, _, h⟩ | ⟨_, _, h⟩ | ⟨_, _, h⟩ | ⟨_, _, h⟩
    · have := joinLoop_kind v env _ _ (mem_calls_of_split h)
      simp [Call.kind] at this
    · have hj : joins v env 5 = true := by
        rw [joins_succ]
        exact hmnt
      obtain ⟨hm, hn⟩ := joinLoop_joined v env _ hh 5 (by decide) hj
      refine ⟨⟨env.open_ns 5, env.setns 5, ?_, hn⟩, ?_⟩
      · rw [hpre]
        exact List.mem_append_left _ hm
      · intro c hc
        rw [hpre, calls_append] at hc
        have hk : c.kind ≤ 1 := by
          rcases List.mem_append.mp hc with hc | hc
          · rw [joinLoop_kind v env _ c hc]
            omega
          · exact relocateRoot_kind v env c (calls_subset_of_split h c hc)
        cases c <;> simp [Call.kind, Call.isCred] at hk ⊢
    · have := changeWork_kind v env _ (mem_calls_of_split h)
      simp [Call.kind] at this
    · have := forkStep_kind v env _ (mem_calls_of_split h)
      simp [Call.kind] at this
    · have := dropCreds_kind v env _ (mem_calls_of_split h)
      simp [Call.kind] at this
    · have := execStep_kind _ env _ (mem_calls_of_split h)
      simp [Call.kind] at this
  · intro pre post dir r ht
    rcases pipeline_split v _ env _ _ _ ht with
      ⟨_, h⟩ | ⟨_, _, _, _, h⟩ | ⟨hh, pre1, post1, hpre, h⟩ | ⟨_, _, h⟩ | ⟨_, _, h⟩ | ⟨_, _, h⟩
    · have := joinLoop_kind v env _ _ (mem_calls_of_split h)
      simp [Call.kind] at this
    · have := relocateRoot_kind v env _ (mem_calls_of_split h)
      simp [Call.kind] at this
    · obtain ⟨h1, h2⟩ := andThen_halt_none.mp hh
      obtain ⟨hm, hn⟩ := relocateRoot_done v env hroot h2
      refine ⟨".", env.chroot, ?_, hn⟩
      rw [hpre, andThen_of_none _ h1]
      exact List.mem_append_left _ (List.mem_append_right _ hm)
    · have := forkStep_kind v env _ (mem_calls_of_split h)
      simp [Call.kind] at this
    · have := dropCreds_kind v env _ (mem_calls_of_split h)
      simp [Call.kind] at this
    · have := execStep_kind _ env _ (mem_calls_of_split h)
      simp [Call.kind] at this

/-! ## Concrete runs for C1, C4 and C6 -/

theorem join_sequence_witness :
    setnsFlags (main [Opt.target 1, Opt.mount, Opt.user, Opt.net] ["--", "sh"] Env.user).trace =
      [CLONE_NEWNET, CLONE_NEWNS] :=
  (join_sequence [Opt.target 1, Opt.mount, Opt.user, Opt.net] ["--", "sh"] Env.user
    (Vars.mk 1 0 0 false false none none [true, false, false, true, false, true])
    (by decide) (by decide) (by decide) (by decide)).1

theorem fatal_failure_terminates_witness :
    (main [Opt.target 1, Opt.net, Opt.mount] ["sh"]
        { Env.ok with setns := fun i => if i = 5 then -1 else 0 }).outcome =
      Outcome.exited 1 :=
  (fatal_failure_terminates [Opt.target 1, Opt.net, Opt.mount] ["sh"]
    { Env.ok with setns := fun i => if i = 5 then -1 else 0 }
    [Event.call (Call.openRd "/proc/1/ns/net") 3, Event.call (Call.setns 3 CLONE_NEWNET) 0,
      Event.call (Call.close 3) 0, Event.call (Call.openRd "/proc/1/ns/mnt") 3]
    [Event.perror "setns"] (Call.setns 3 CLONE_NEWNS) (-1)
    (by decide) (by decide) (by decide)).2.1

theorem root_change_order_witness :
    ∃ fd r1,
      Event.call (Call.setns fd CLONE_NEWNS) r1 ∈
          [Event.call (Call.openRd "/proc/1/ns/mnt") 3, Event.call (Call.setns 3 CLONE_NEWNS) 0,
            Event.call (Call.close 3) 0, Event.call (Call.openRd "/r") 3,
            Event.call (Call.fchdir 3) 0] ∧
        0 ≤ r1 :=
  ((root_change_order [Opt.target 1, Opt.mount, Opt.root "/r", Opt.wd "/w"] ["sh"] Env.ok
    (Vars.mk 1 0 0 false false (some "/r") (some "/w") [false, false, false, false, false, true])
    (by decide) (by decide) (by decide) (by decide) (by decide)).1
    [Event.call (Call.openRd "/proc/1/ns/mnt") 3, Event.call (Call.setns 3 CLONE_NEWNS) 0,
      Event.call (Call.close 3) 0, Event.call (Call.openRd "/r") 3,
      Event.call (Call.fchdir 3) 0]
    [Event.call (Call.close 3) 0, Event.call (Call.chdir "/w") 0,
      Event.call (Call.setgroups 0) 0, Event.noreturn (Call.execvp (some "sh") ["sh"])]
    "." 0 (by decide)).1

/-- C7 at a failing input: with `-t 1 -m -- --` the argument left at
`argv[optind]` is the marker alone, so the command vector that lines 125-127
build is empty; the check of line 120 has already passed, and `main` opens and
joins the mount namespace, clears the groups and calls `execvp` instead of
writing the usage line and returning 1 with no operation. -/
theorem marker_only_runs_pipeline :
    stripMarker ["--"] = [] ∧
      main [Opt.target 1, Opt.mount] ["--"] { Env.ok with execvp := some (-1) } =
        ⟨[Event.call (Call.openRd "/proc/1/ns/mnt") 3,
            Event.call (Call.setns 3 CLONE_NEWNS) 0,
            Event.call (Call.close 3) 0,
            Event.call (Call.setgroups 0) 0,
            Event.call (Call.execvp none []) (-1),
            Event.perror "exec"],
          Outcome.exited 1⟩ ∧
      main [Opt.target 1, Opt.mount] ["--"] { Env.ok with execvp := some (-1) } ≠
        ⟨[Event.usage], Outcome.exited 1⟩ ∧
      calls (main [Opt.target 1, Opt.mount] ["--"]
          { Env.ok with execvp := some (-1) }).trace ≠ [] := by
  decide

end Nsenter
